import Mathlib

/-! A verification model of `parser.cpp`

`parser.cpp` wraps a TensorRT engine: the constructor builds the engine from an
ONNX file or restores it from a serialized plan, `inference` runs one image
through preprocessing, execution and postprocessing, and `export_trt` writes the
serialized plan next to the model file.

The TensorRT, CUDA and OpenCV libraries are outside the program.  Their answers
are taken as data (`Backend`, `FileSystem`, `Device`) and every call the program
makes to them is recorded in a trace of `Event`s, so that statements about what
the program does to its environment become statements about that trace.
-/

namespace TrtParser

/-! ## Machine integers -/

/-- The number of values of a `size_t` (64 bits on every platform TensorRT runs on). -/
def SIZE_MOD : Nat := 2 ^ 64

/-- The largest value of a 32-bit `int`. -/
def INT_MAX : Nat := 2147483647

/-- The implicit conversion of a signed integer to `size_t`. -/
def toSizeT (x : Int) : Nat := (x % (SIZE_MOD : Int)).toNat

/-- Multiplication of two `size_t` values. -/
def mulSizeT (a b : Nat) : Nat := (a * b) % SIZE_MOD

/-- The value of `sizeof(float)`. -/
def SIZEOF_FLOAT : Nat := 4

/-! ## Strings -/

/-- A `std::string`, as the sequence of its characters. -/
abbrev CppString := List Char

/-- The member `std::string::find_last_of(c)`: the index of the last occurrence of `c`.
The result `none` stands for `std::string::npos`. -/
def find_last_of : CppString → Char → Option Nat
  | [], _ => none
  | x :: xs, c =>
    match find_last_of xs c with
    | some i => some (i + 1)
    | none => if x = c then some 0 else none

/-- The expression `pos + 1` on a `size_t` position: `npos` is the largest `size_t`,
so `npos + 1` wraps around to `0`. -/
def posPlusOne : Option Nat → Nat
  | none => 0
  | some i => i + 1

/-- The member `std::string::substr(pos, count)` for `pos` not beyond the end
(the only positions met in this program); a count of `none` is `npos`, that is
"up to the end". -/
def substr (s : CppString) (pos : Nat) (count : Option Nat) : CppString :=
  match count with
  | none => s.drop pos
  | some n => (s.drop pos).take n

/-! ## Tensor shapes -/

/-- Modelled from the spec: `nvinfer1::Dims` is declared in `NvInfer.h`, which is not
among the sources.  The spec describes a tensor shape as an "ordered sequence of
dimension sizes"; `d` holds the entries `d[0]`, ..., `d[nbDims - 1]`, each a signed
32-bit integer, and `nbDims` (between 0 and the capacity of the array `d`) is its
length. -/
structure Dims where
  d : List Int
deriving DecidableEq, Repr

/-- The field `nbDims` of a shape. -/
def Dims.nbDims (dims : Dims) : Nat := dims.d.length

/-- The loop of `getSizeByDim`: `size *= dims.d[i]` for `i = 0, ..., nbDims - 1`.
The entry is converted to `size_t` and the product is taken in `size_t`. -/
def getSizeByDim.loop : List Int → Nat → Nat
  | [], size => size
  | x :: rest, size => getSizeByDim.loop rest (mulSizeT size (toSizeT x))

/-- `Parser::getSizeByDim`. -/
def getSizeByDim (dims : Dims) : Nat :=
  getSizeByDim.loop dims.d 1

/-! ## The environment -/

/-- The content of a file or of a serialized plan. -/
abbrev Bytes := List UInt8

/-- One binding of an engine: what `getBindingDimensions(i)` and `bindingIsInput(i)`
answer for it. -/
structure Binding where
  dims : Dims
  isInput : Bool
deriving DecidableEq, Repr

/-- An `nvinfer1::ICudaEngine`, as far as the program looks at it: its bindings in
plan order, and what `serialize()` returns (`none` for a null pointer). -/
structure ICudaEngine where
  bindings : List Binding
  serialize : Option Bytes
deriving DecidableEq, Repr

/-- An `nvinfer1::IExecutionContext`: it belongs to one engine. -/
structure IExecutionContext where
  engine : ICudaEngine
deriving DecidableEq, Repr

/-- The answers of the TensorRT library. A null pointer is `none`. -/
structure Backend where
  parseFromFile : CppString → Bool
  platformHasFastFp16 : Bool
  buildEngineWithConfig : CppString → Option ICudaEngine
  createInferRuntime : Bool
  deserializeCudaEngine : Bytes → Nat → Option ICudaEngine

/-- The file system: the content of each file that exists, and whether a path can
be opened for writing. -/
structure FileSystem where
  content : CppString → Option Bytes
  writable : CppString → Bool

/-- The file system after `path` has been opened for writing and `data` written. -/
def FileSystem.write (fs : FileSystem) (path : CppString) (data : Bytes) : FileSystem :=
  { content := fun q => if q = path then some data else fs.content q
    writable := fs.writable }

/-- The device memory: the buffers that are allocated, and the next fresh pointer. -/
structure Device where
  next : Nat
  live : List Nat
deriving DecidableEq, Repr

/-- The call `cudaMalloc`, which is taken to succeed: it hands out a fresh pointer,
which becomes live. -/
def cudaMalloc (dev : Device) : Nat × Device :=
  (dev.next, { next := dev.next + 1, live := dev.live ++ [dev.next] })

/-- The call `cudaFree(ptr)`. -/
def cudaFree (dev : Device) (ptr : Nat) : Device :=
  { next := dev.next, live := dev.live.erase ptr }

/-- An image `cv::Mat`; `empty()` holds when it has no pixel. -/
structure Mat where
  pixels : List UInt8
deriving DecidableEq, Repr

/-- The member `cv::Mat::empty()`. -/
def Mat.empty (m : Mat) : Bool := m.pixels.isEmpty

/-- What the program does to its environment, in the order it does it. -/
inductive Event where
  | parseFromFile (path : CppString)
  | setDimensions (selector : Nat) (dims : Dims)
  | setMaxWorkspaceSize (bytes : Nat)
  | setFlagFP16
  | setMaxBatchSize (n : Int)
  | buildEngineWithConfig (path : CppString)
  | deserializeCudaEngine (data : Bytes) (size : Nat)
  | createExecutionContext (engine : Option ICudaEngine)
  | cerr (msg : String)
  | cout (value : Nat)
  | exit (code : Int)
  | assertFailed (what : String)
  | cudaMalloc (ptr : Nat) (size : Nat)
  | cudaFree (ptr : Nat)
  | preprocessImage (gpu_input : Nat) (dims : Dims)
  | planeWrite (gpu_input : Nat) (offset : Nat) (count : Nat)
  | enqueue (batch : Int) (buffers : List Nat)
  | postprocessResults (gpu_output : Nat) (dims : Dims)
  | cudaMemcpy (gpu_output : Nat) (bytes : Nat)
  | print (index : Nat)
deriving DecidableEq, Repr

/-- How a call ends: it returns, the process exits (`exit(0)`), an `assert` aborts
the process, or the behaviour is undefined (a call through a null pointer, an
overflowing `int`, a `vector` longer than it can be). -/
inductive Outcome where
  | returned
  | exited
  | aborted
  | undefined
deriving DecidableEq, Repr

/-! ## The constructor -/

/-- The object `Parser`: its data members. The two pointers are `none` as long as
the constructor has not set them. -/
structure Parser where
  model_path : CppString
  batch_size : Int
  engine : Option ICudaEngine
  context : Option IExecutionContext
deriving DecidableEq, Repr

/-- Which of the three branches of the constructor is taken. -/
inductive Branch where
  | builder
  | loader
  | unreadable
deriving DecidableEq, Repr

/-- The local `file_extention` of the constructor:
`model_path.substr(model_path.find_last_of(".") + 1)`. -/
def file_extention (model_path : CppString) : CppString :=
  substr model_path (posPlusOne (find_last_of model_path '.')) none

/-- The branch the constructor takes for a path. -/
def Parser.branch (model_path : CppString) : Branch :=
  if file_extention model_path = "onnx".toList then Branch.builder
  else if file_extention model_path = "trt".toList then Branch.loader
  else Branch.unreadable

/-- What a call of the constructor leaves behind. -/
structure Constructed where
  parser : Parser
  trace : List Event
  outcome : Outcome

/-- The shape `Dims4{1, 128, 128, 3}` of the optimization profile. -/
def PROFILE_DIMS : Dims := ⟨[1, 128, 128, 3]⟩

/-- The branch of the constructor for an `.onnx` file. `MAX_WORKSPACE` is a macro of
`parser.h`, which is not among the sources; it is a parameter. The factory calls
(`createInferBuilder`, `createNetworkV2`, `createParser`, `createBuilderConfig`,
`createOptimizationProfile`) are taken to succeed; the code does not test them. -/
def Parser.build (be : Backend) (MAX_WORKSPACE : Nat) (p : Parser) : Constructed :=
  if be.parseFromFile p.model_path = false then
    { parser := p
      trace := [Event.parseFromFile p.model_path,
                Event.cerr "ERROR: could not parse the model.\n", Event.exit 0]
      outcome := Outcome.exited }
  else
    let config : List Event :=
      [Event.parseFromFile p.model_path,
       Event.setDimensions 0 PROFILE_DIMS, Event.setDimensions 1 PROFILE_DIMS,
       Event.setDimensions 2 PROFILE_DIMS, Event.setMaxWorkspaceSize MAX_WORKSPACE]
      ++ (if be.platformHasFastFp16 then [Event.setFlagFP16] else [])
      ++ [Event.setMaxBatchSize 1, Event.buildEngineWithConfig p.model_path]
    let engine := be.buildEngineWithConfig p.model_path
    match engine with
    | none =>
      -- `this->engine->createExecutionContext()` through the null pointer
      { parser := { p with engine := none }
        trace := config ++ [Event.createExecutionContext none]
        outcome := Outcome.undefined }
    | some e =>
      { parser := { p with engine := some e, context := some ⟨e⟩ }
        trace := config ++ [Event.createExecutionContext (some e)]
        outcome := Outcome.returned }

/-- The branch of the constructor for a `.trt` file. The two `assert`s are active
(the program is compiled without `NDEBUG`). -/
def Parser.load (be : Backend) (fs : FileSystem) (p : Parser) : Constructed :=
  let trtModelStream : Bytes := (fs.content p.model_path).getD []
  let size : Nat :=
    match fs.content p.model_path with
    | some bytes => bytes.length
    | none => 0
  if be.createInferRuntime = false then
    { parser := p
      trace := [Event.cout size, Event.assertFailed "runtime != nullptr"]
      outcome := Outcome.aborted }
  else
    match be.deserializeCudaEngine trtModelStream size with
    | none =>
      { parser := { p with engine := none }
        trace := [Event.cout size, Event.deserializeCudaEngine trtModelStream size,
                  Event.assertFailed "this->engine != nullptr"]
        outcome := Outcome.aborted }
    | some e =>
      { parser := { p with engine := some e, context := some ⟨e⟩ }
        trace := [Event.cout size, Event.deserializeCudaEngine trtModelStream size,
                  Event.createExecutionContext (some e)]
        outcome := Outcome.returned }

/-- The constructor `Parser::Parser(path, batch_sz)` (the name `Parser.Parser` would
clash with the structure inside its own namespace). -/
def Parser.construct (be : Backend) (fs : FileSystem) (MAX_WORKSPACE : Nat)
    (path : CppString) (batch_sz : Int) : Constructed :=
  let p : Parser := { model_path := path, batch_size := batch_sz, engine := none, context := none }
  match Parser.branch path with
  | Branch.builder => Parser.build be MAX_WORKSPACE p
  | Branch.loader => Parser.load be fs p
  | Branch.unreadable =>
    { parser := p
      trace := [Event.cerr ("Cannot read " ++ String.mk path)]
      outcome := Outcome.returned }

/-! ## The words of the specification -/

/-- The product of all the dimension sizes of a shape, as the specification words
it (`elementCount`): a product of integers, without any bound. -/
def elementCount (dims : Dims) : Int := dims.d.prod

/-- A shape whose dimensions are all non-negative. -/
def Dims.nonneg (dims : Dims) : Prop := ∀ x ∈ dims.d, 0 ≤ x

instance (dims : Dims) : Decidable dims.nonneg := by
  unfold Dims.nonneg
  infer_instance

/-! ## Inference -/

/-- The locals of `inference` while the allocation loop runs, together with the
device and the trace. -/
structure Buffers where
  dev : Device
  buffers : List Nat
  input_dims : List Dims
  output_dims : List Dims
  trace : List Event

/-- The locals of `inference` when its allocation loop starts. -/
def Buffers.start (dev : Device) : Buffers :=
  { dev := dev, buffers := [], input_dims := [], output_dims := [], trace := [] }

/-- The local `binding_size` of the allocation loop:
`getSizeByDim(dims) * batch_size * sizeof(float)`, computed in `size_t`. -/
def binding_size (batch_size : Int) (dims : Dims) : Nat :=
  mulSizeT (mulSizeT (getSizeByDim dims) (toSizeT batch_size)) SIZEOF_FLOAT

/-- The allocation loop of `inference`, over the bindings not yet visited.
`buffers[i]` is assigned in index order, so the vector is built from the front. -/
def inference.allocate (batch_size : Int) : List Binding → Buffers → Buffers
  | [], st => st
  | b :: rest, st =>
    let ptr := (cudaMalloc st.dev).1
    inference.allocate batch_size rest
      { dev := (cudaMalloc st.dev).2
        buffers := st.buffers ++ [ptr]
        input_dims := if b.isInput then st.input_dims ++ [b.dims] else st.input_dims
        output_dims := if b.isInput then st.output_dims else st.output_dims ++ [b.dims]
        trace := st.trace ++ [Event.cudaMalloc ptr (binding_size batch_size b.dims)] }

/-- The three locals `input_width`, `input_height` and `channels` of `preprocessImage`. -/
def input_width : Nat := 128

/-- See `input_width`. -/
def input_height : Nat := 128

/-- See `input_width`. -/
def channels : Nat := 3

/-- The vector `chw` of `preprocessImage`: plane `i` starts `i * input_width * input_height`
floats after `gpu_input` and holds `input_width * input_height` floats. Each entry is
(offset, count), both in floats. -/
def preprocessImage.chw : List (Nat × Nat) :=
  (List.range channels).map
    (fun i => (mulSizeT (mulSizeT i input_width) input_height, input_width * input_height))

/-- `Parser::preprocessImage`: the events it causes and how it ends. For a frame of
three channels `cv::cuda::split` fills the three planes of `chw` in place. The
argument `dims` is not used by the body. -/
def preprocessImage (frame : Mat) (gpu_input : Nat) (_dims : Dims) : List Event × Outcome :=
  if frame.empty then
    ([Event.cerr "Cannot load Input image!! \n", Event.exit 0], Outcome.exited)
  else
    (preprocessImage.chw.map (fun r => Event.planeWrite gpu_input r.1 r.2), Outcome.returned)

/-- `Parser::postprocessResults`. The vector `cpu_output` has
`getSizeByDim(dims) * batch_size` entries (a `size_t` product); `cudaMemcpy` copies
`cpu_output.size() * sizeof(float)` bytes; the loop prints the entries of index
`0, 1, ...` with an `int` counter, which is defined only as long as the counter stays
within `INT_MAX` (beyond it the counter overflows, and far beyond it the vector
cannot even be created). -/
def postprocessResults (batch_size : Int) (gpu_output : Nat) (dims : Dims) :
    List Event × Outcome :=
  let size := mulSizeT (getSizeByDim dims) (toSizeT batch_size)
  if size ≤ INT_MAX then
    (Event.cudaMemcpy gpu_output (mulSizeT size SIZEOF_FLOAT)
      :: (List.range size).map Event.print, Outcome.returned)
  else
    ([], Outcome.undefined)

/-- The last loop of `inference`: `cudaFree(buf)` for every entry of `buffers`. -/
def inference.release : List Nat → Device → Device
  | [], dev => dev
  | buf :: rest, dev => inference.release rest (cudaFree dev buf)

/-- What a call of `inference` leaves behind. -/
structure Inferred where
  trace : List Event
  device : Device
  outcome : Outcome

/-- `Parser::inference`. -/
def inference (p : Parser) (dev : Device) (image : Mat) : Inferred :=
  match p.engine with
  | none =>
    -- `this->engine->getNbBindings()` through a pointer that was never set
    { trace := [], device := dev, outcome := Outcome.undefined }
  | some engine =>
    let st := inference.allocate p.batch_size engine.bindings (Buffers.start dev)
    match st.input_dims, st.output_dims with
    | in0 :: _, out0 :: _ =>
      match st.buffers with
      | buf0 :: buf1 :: _ =>
        let pre := preprocessImage image buf0 in0
        let t1 := st.trace ++ Event.preprocessImage buf0 in0 :: pre.1
        if pre.2 ≠ Outcome.returned then
          { trace := t1, device := st.dev, outcome := pre.2 }
        else
          match p.context with
          | none =>
            -- `this->context->enqueue(...)` through a pointer that was never set
            { trace := t1, device := st.dev, outcome := Outcome.undefined }
          | some _ =>
            let t2 := t1 ++ [Event.enqueue p.batch_size st.buffers]
            let post := postprocessResults p.batch_size buf1 out0
            let t3 := t2 ++ Event.postprocessResults buf1 out0 :: post.1
            if post.2 ≠ Outcome.returned then
              { trace := t3, device := st.dev, outcome := post.2 }
            else
              { trace := t3 ++ st.buffers.map Event.cudaFree
                device := inference.release st.buffers st.dev
                outcome := Outcome.returned }
      | _ =>
        -- `buffers[0]` or `buffers[1]` beyond the end of the vector
        { trace := st.trace, device := st.dev, outcome := Outcome.undefined }
    | _, _ =>
      { trace := st.trace ++ [Event.cerr "Expect at least one input and one output for network \n"]
        device := st.dev
        outcome := Outcome.returned }

/-! ## Export -/

/-- The macro `BUFSIZ` of `<cstdio>` (its value in glibc). -/
def BUFSIZ : Nat := 8192

/-- The copy loop of `export_trt`: `fread` up to `BUFSIZ` bytes and `fwrite` them, until
`fread` returns 0. The arguments are the number of rounds still allowed, the bytes
of the source not yet read, and the bytes written so far. -/
def export_trt.copy : Nat → Bytes → Bytes → Bytes
  | 0, _, written => written
  | fuel + 1, unread, written =>
    if (unread.take BUFSIZ).length = 0 then written
    else export_trt.copy fuel (unread.drop BUFSIZ) (written ++ unread.take BUFSIZ)

/-- The local `trt_filename` of `export_trt`:
`model_path.substr(0, model_path.find_last_of(".")) + ".trt"`. -/
def trt_filename (model_path : CppString) : CppString :=
  substr model_path 0 (find_last_of model_path '.') ++ ".trt".toList

/-- `Parser::export_trt`: the value returned and the file system afterwards; `none`
when the behaviour is undefined (`fread` or `fclose` on a null `FILE*`, a call
through an engine pointer that was never set). -/
def export_trt (p : Parser) (fs : FileSystem) : Option (Bool × FileSystem) :=
  let name := trt_filename p.model_path
  match fs.content p.model_path with
  | none => none
  | some _ =>
    if fs.writable name = false then none
    else
      -- `fopen(trt_filename, "wb")` creates the file or cuts it to length 0
      let fs1 := fs.write name []
      let source := (fs1.content p.model_path).getD []
      let fs2 := fs1.write name (export_trt.copy (source.length + 1) source [])
      if fs2.writable name = false then some (false, fs2)
      else
        -- `std::ofstream engineFile(trt_filename, std::ios::binary)` cuts it again
        let fs3 := fs2.write name []
        match p.engine with
        | none => none
        | some engine =>
          match engine.serialize with
          | none => some (false, fs3)
          | some data => some (true, fs3.write name data)

/-! ## Words of the claims about the trace -/

/-- The shapes of the input bindings of a binding list, in binding order. -/
def inputShapes (bs : List Binding) : List Dims :=
  (bs.filter (fun b => b.isInput)).map Binding.dims

/-- The shapes of the output bindings of a binding list, in binding order. -/
def outputShapes (bs : List Binding) : List Dims :=
  (bs.filter (fun b => !b.isInput)).map Binding.dims

/-- The byte size asked for by a `cudaMalloc` event. -/
def Event.mallocSize : Event → Option Nat
  | Event.cudaMalloc _ size => some size
  | _ => none

/-- The pointer handed out by a `cudaMalloc` event. -/
def Event.mallocPtr : Event → Option Nat
  | Event.cudaMalloc ptr _ => some ptr
  | _ => none

/-- The pointer released by a `cudaFree` event. -/
def Event.freePtr : Event → Option Nat
  | Event.cudaFree ptr => some ptr
  | _ => none

/-- The three stages of an inference call: the calls of `preprocessImage`, of
`enqueue` and of `postprocessResults`. -/
def Event.isStage : Event → Bool
  | Event.preprocessImage _ _ => true
  | Event.enqueue _ _ => true
  | Event.postprocessResults _ _ => true
  | _ => false

/-- The float range written by a `planeWrite` event: first offset and count. -/
def Event.written : Event → Option (Nat × Nat)
  | Event.planeWrite _ offset count => some (offset, count)
  | _ => none

/-- The index printed by a `print` event. -/
def Event.printed : Event → Option Nat
  | Event.print i => some i
  | _ => none

/-- The byte count of a `cudaMemcpy` event. -/
def Event.copied : Event → Option Nat
  | Event.cudaMemcpy _ bytes => some bytes
  | _ => none

/-- The `cudaMalloc` events of the allocation loop for a binding list. -/
def allocEvents (batch_size : Int) (dev : Device) (bs : List Binding) : List Event :=
  List.zipWith (fun ptr b => Event.cudaMalloc ptr (binding_size batch_size b.dims))
    (List.range' dev.next bs.length) bs

/-! ## Words of the claims about an inference call, and sample inputs -/

/-- The binding list has at least one input binding. -/
def hasInput (bs : List Binding) : Bool := bs.any (fun b => b.isInput)

/-- The binding list has at least one output binding. -/
def hasOutput (bs : List Binding) : Bool := bs.any (fun b => !b.isInput)

/-- A constructed object around an engine. -/
def Parser.around (engine : ICudaEngine) (batch_size : Int) : Parser :=
  { model_path := "model.trt".toList, batch_size := batch_size
    engine := some engine, context := some ⟨engine⟩ }

/-- A device on which nothing is allocated. -/
def Device.fresh : Device := { next := 0, live := [] }

/-- An engine with an input binding of the profile's shape followed by an output
binding of shape (1, 10). -/
def engineInOut : ICudaEngine :=
  { bindings := [⟨PROFILE_DIMS, true⟩, ⟨⟨[1, 10]⟩, false⟩], serialize := none }

/-- An engine whose only binding is an output of shape (1, 10). -/
def engineOutOnly : ICudaEngine :=
  { bindings := [⟨⟨[1, 10]⟩, false⟩], serialize := none }

/-- An engine whose input binding has `2 ^ 62` elements. -/
def engineHuge : ICudaEngine :=
  { bindings := [⟨⟨[65536, 65536, 65536, 16384]⟩, true⟩, ⟨⟨[1, 10]⟩, false⟩]
    serialize := none }

/-- An image with one pixel value. -/
def someImage : Mat := ⟨[7]⟩

/-- The image without any pixel. -/
def emptyImage : Mat := ⟨[]⟩

/-- A backend that parses every file and whose compiler and deserializer yield no
plan (a null pointer). -/
def backendNull : Backend :=
  { parseFromFile := fun _ => true
    platformHasFastFp16 := false
    buildEngineWithConfig := fun _ => none
    createInferRuntime := true
    deserializeCudaEngine := fun _ _ => none }

/-- A file system that holds the single file `model.onnx`. -/
def oneModel : FileSystem :=
  { content := fun q => if q = "model.onnx".toList then some [79, 78, 78, 88] else none
    writable := fun _ => true }

theorem toSizeT_cast (x : Int) : ((toSizeT x : Nat) : Int) = x % (SIZE_MOD : Int) := by
  unfold toSizeT
  apply Int.toNat_of_nonneg
  apply Int.emod_nonneg
  simp [SIZE_MOD]

theorem mulSizeT_lt (a b : Nat) : mulSizeT a b < SIZE_MOD := by
  unfold mulSizeT
  apply Nat.mod_lt
  simp [SIZE_MOD]

theorem mulSizeT_toSizeT_cast (s : Nat) (x : Int) :
    ((mulSizeT s (toSizeT x) : Nat) : Int) = ((s : Int) * x) % (SIZE_MOD : Int) := by
  unfold mulSizeT
  rw [Int.natCast_mod, Nat.cast_mul, toSizeT_cast, Int.mul_emod, Int.emod_emod,
    ← Int.mul_emod]

theorem getSizeByDim_loop_lt (l : List Int) (s : Nat) (hs : s < SIZE_MOD) :
    getSizeByDim.loop l s < SIZE_MOD := by
  induction l generalizing s with
  | nil => simpa [getSizeByDim.loop] using hs
  | cons x rest ih =>
    simp only [getSizeByDim.loop]
    exact ih _ (mulSizeT_lt _ _)

theorem getSizeByDim_loop_mod (l : List Int) (s : Nat) :
    ((getSizeByDim.loop l s : Nat) : Int) % (SIZE_MOD : Int)
      = ((s : Int) * l.prod) % (SIZE_MOD : Int) := by
  induction l generalizing s with
  | nil => simp [getSizeByDim.loop]
  | cons x rest ih =>
    simp only [getSizeByDim.loop, List.prod_cons]
    rw [ih, mulSizeT_toSizeT_cast, Int.mul_emod, Int.emod_emod, ← Int.mul_emod, mul_assoc]

theorem getSizeByDim_lt (dims : Dims) : getSizeByDim dims < SIZE_MOD :=
  getSizeByDim_loop_lt dims.d 1 (by simp [SIZE_MOD])

/-- The value of `getSizeByDim` is the product of the dimensions modulo `2 ^ 64`,
whatever the signs of the dimensions. -/
theorem getSizeByDim_cast (dims : Dims) :
    ((getSizeByDim dims : Nat) : Int) = elementCount dims % (SIZE_MOD : Int) := by
  have h := getSizeByDim_loop_mod dims.d 1
  have hlt := getSizeByDim_lt dims
  unfold getSizeByDim at *
  unfold elementCount
  rw [Int.emod_eq_of_lt (by positivity) (by exact_mod_cast hlt)] at h
  simpa using h

theorem elementCount_nonneg (dims : Dims) (h : dims.nonneg) : 0 ≤ elementCount dims := by
  unfold elementCount
  exact List.prod_nonneg h

/-- C1, as the claim states it, fails: the shape (65536, 65536, 65536, 65536) has
non-negative dimensions and its product of dimension sizes is `2 ^ 64`, but
`getSizeByDim` returns 0. -/
theorem getSizeByDim_product_counterexample :
    Dims.nonneg ⟨[65536, 65536, 65536, 65536]⟩
    ∧ elementCount ⟨[65536, 65536, 65536, 65536]⟩ = 18446744073709551616
    ∧ getSizeByDim ⟨[65536, 65536, 65536, 65536]⟩ = 0
    ∧ ((getSizeByDim ⟨[65536, 65536, 65536, 65536]⟩ : Nat) : Int)
        ≠ elementCount ⟨[65536, 65536, 65536, 65536]⟩ := by
  refine ⟨by decide, by decide, by decide, by decide⟩

/-- C1, amended: for every shape whose dimensions are all non-negative,
`getSizeByDim` returns the product of the dimension sizes reduced modulo `2 ^ 64`,
hence the product itself whenever that product is below `2 ^ 64`; it returns 1 for
the shape with zero dimensions and 49152 for the shape (1, 3, 128, 128). -/
theorem getSizeByDim_product (dims : Dims) (h : dims.nonneg) :
    ((getSizeByDim dims : Nat) : Int) = elementCount dims % (SIZE_MOD : Int)
    ∧ (elementCount dims < (SIZE_MOD : Int) →
        ((getSizeByDim dims : Nat) : Int) = elementCount dims)
    ∧ getSizeByDim ⟨[]⟩ = 1
    ∧ getSizeByDim ⟨[1, 3, 128, 128]⟩ = 49152 := by
  refine ⟨getSizeByDim_cast dims, ?_, by decide, by decide⟩
  intro hlt
  rw [getSizeByDim_cast, Int.emod_eq_of_lt (elementCount_nonneg dims h) hlt]

theorem getSizeByDim_product_witness :
    Dims.nonneg ⟨[2, 3, 5]⟩
    ∧ ((getSizeByDim ⟨[2, 3, 5]⟩ : Nat) : Int) = elementCount ⟨[2, 3, 5]⟩ % (SIZE_MOD : Int)
    ∧ (elementCount ⟨[2, 3, 5]⟩ < (SIZE_MOD : Int) →
        ((getSizeByDim ⟨[2, 3, 5]⟩ : Nat) : Int) = elementCount ⟨[2, 3, 5]⟩)
    ∧ getSizeByDim ⟨[]⟩ = 1
    ∧ getSizeByDim ⟨[1, 3, 128, 128]⟩ = 49152 :=
  ⟨by decide, getSizeByDim_product ⟨[2, 3, 5]⟩ (by decide)⟩

/-! ## Paths -/

theorem find_last_of_eq_none (s : CppString) (c : Char) :
    find_last_of s c = none ↔ c ∉ s := by
  induction s with
  | nil => simp [find_last_of]
  | cons x xs ih =>
    simp only [find_last_of, List.mem_cons, not_or]
    cases hx : find_last_of xs c with
    | none =>
      have := ih.mp hx
      by_cases hxc : x = c
      · simp [hxc]
      · simp [hxc, this, Ne.symm hxc]
    | some i =>
      have : ¬ (c ∉ xs) := fun h => by simp [ih.mpr h] at hx
      simp [this]

theorem find_last_of_cons_self (t : CppString) (c : Char) (h : c ∉ t) :
    find_last_of (c :: t) c = some 0 := by
  simp [find_last_of, (find_last_of_eq_none t c).mpr h]

theorem find_last_of_append (base t : CppString) (c : Char) (h : c ∉ t) :
    find_last_of (base ++ c :: t) c = some base.length := by
  induction base with
  | nil => simpa using find_last_of_cons_self t c h
  | cons x xs ih => simp [find_last_of, ih]

theorem find_last_of_eq_some (s : CppString) (c : Char) (i : Nat)
    (h : find_last_of s c = some i) :
    s = s.take i ++ c :: s.drop (i + 1) ∧ c ∉ s.drop (i + 1) := by
  induction s generalizing i with
  | nil => simp [find_last_of] at h
  | cons x xs ih =>
    simp only [find_last_of] at h
    cases hx : find_last_of xs c with
    | none =>
      rw [hx] at h
      by_cases hxc : x = c
      · simp [hxc] at h
        subst h
        subst hxc
        simpa using (find_last_of_eq_none xs x).mp hx
      · simp [hxc] at h
    | some j =>
      rw [hx] at h
      simp at h
      subst h
      have := ih j hx
      constructor
      · simp only [List.take_succ_cons, List.drop_succ_cons, List.cons_append]
        rw [← this.1]
      · simpa using this.2

theorem file_extention_append (base t : CppString) (h : '.' ∉ t) :
    file_extention (base ++ '.' :: t) = t := by
  simp [file_extention, find_last_of_append base t '.' h, posPlusOne, substr]

theorem file_extention_of_no_dot (s : CppString) (h : '.' ∉ s) :
    file_extention s = s := by
  simp [file_extention, (find_last_of_eq_none s '.').mpr h, posPlusOne, substr]

/-- The extension is the whole path when the path has no dot, and otherwise what
follows the last dot. -/
theorem file_extention_spec (s : CppString) :
    ('.' ∉ s ∧ file_extention s = s)
    ∨ ('.' ∉ file_extention s ∧ ∃ base, s = base ++ '.' :: file_extention s) := by
  cases h : find_last_of s '.' with
  | none =>
    left
    have := (find_last_of_eq_none s '.').mp h
    exact ⟨this, file_extention_of_no_dot s this⟩
  | some i =>
    right
    have := find_last_of_eq_some s '.' i h
    have he : file_extention s = s.drop (i + 1) := by
      simp [file_extention, h, posPlusOne, substr]
    rw [he]
    exact ⟨this.2, s.take i, this.1⟩

/-- The extension of a path is `ext` (a text without dot) exactly when the path is
`ext` itself or ends with a dot followed by `ext`. -/
theorem file_extention_eq_iff (s ext : CppString) (hext : '.' ∉ ext) :
    file_extention s = ext ↔ s = ext ∨ ('.' :: ext) <:+ s := by
  constructor
  · intro h
    rcases file_extention_spec s with ⟨_, h2⟩ | ⟨_, base, h2⟩
    · left; rw [← h2, h]
    · right; rw [h] at h2; exact ⟨base, h2.symm⟩
  · rintro (h | ⟨base, h⟩)
    · subst h; exact file_extention_of_no_dot _ hext
    · rw [← h]; exact file_extention_append base ext hext


/-! ## The allocation loop -/

theorem allocate_spec (batch_size : Int) (bs : List Binding) (st : Buffers) :
    inference.allocate batch_size bs st =
      { dev := { next := st.dev.next + bs.length
                 live := st.dev.live ++ List.range' st.dev.next bs.length }
        buffers := st.buffers ++ List.range' st.dev.next bs.length
        input_dims := st.input_dims ++ inputShapes bs
        output_dims := st.output_dims ++ outputShapes bs
        trace := st.trace ++ allocEvents batch_size st.dev bs } := by
  unfold inputShapes outputShapes allocEvents
  induction bs generalizing st with
  | nil => simp [inference.allocate]
  | cons b rest ih =>
    rw [inference.allocate, ih]
    cases hb : b.isInput <;>
      simp [cudaMalloc, hb, List.range'_succ, Nat.add_assoc, Nat.add_comm 1]


/-! ## The shape of an inference call -/

theorem two_bindings (bs : List Binding) (hi : inputShapes bs ≠ []) (ho : outputShapes bs ≠ []) :
    ∃ b0 b1 rest, bs = b0 :: b1 :: rest := by
  match bs with
  | [] => simp [inputShapes] at hi
  | [b] =>
    cases hb : b.isInput
    · simp [inputShapes, hb] at hi
    · simp [outputShapes, hb] at ho
  | b0 :: b1 :: rest => exact ⟨b0, b1, rest, rfl⟩

/-- The device after the allocation loop of `inference`. -/
theorem allocate_start (batch_size : Int) (bs : List Binding) (dev : Device) :
    inference.allocate batch_size bs (Buffers.start dev) =
      { dev := { next := dev.next + bs.length
                 live := dev.live ++ List.range' dev.next bs.length }
        buffers := List.range' dev.next bs.length
        input_dims := inputShapes bs
        output_dims := outputShapes bs
        trace := allocEvents batch_size dev bs } := by
  rw [allocate_spec]
  simp [Buffers.start]

theorem inference_early (p : Parser) (e : ICudaEngine)
    (dev : Device) (image : Mat) (he : p.engine = some e)
    (h : inputShapes e.bindings = [] ∨ outputShapes e.bindings = []) :
    (inference p dev image).trace = allocEvents p.batch_size dev e.bindings
        ++ [Event.cerr "Expect at least one input and one output for network \n"]
    ∧ (inference p dev image).device =
        { next := dev.next + e.bindings.length
          live := dev.live ++ List.range' dev.next e.bindings.length }
    ∧ (inference p dev image).outcome = Outcome.returned := by
  unfold inference
  rw [he]
  simp only [allocate_start]
  rcases h with h | h
  · rw [h]; simp
  · rw [h]
    cases inputShapes e.bindings <;> simp

theorem inference_exit (p : Parser) (e : ICudaEngine)
    (dev : Device) (image : Mat) (he : p.engine = some e)
    (in0 out0 : Dims) (ins outs : List Dims)
    (hi : inputShapes e.bindings = in0 :: ins) (ho : outputShapes e.bindings = out0 :: outs)
    (himg : image.empty = true) :
    (inference p dev image).trace = allocEvents p.batch_size dev e.bindings
        ++ [Event.preprocessImage dev.next in0, Event.cerr "Cannot load Input image!! \n",
            Event.exit 0]
    ∧ (inference p dev image).device =
        { next := dev.next + e.bindings.length
          live := dev.live ++ List.range' dev.next e.bindings.length }
    ∧ (inference p dev image).outcome = Outcome.exited := by
  obtain ⟨b0, b1, rest, hbs⟩ := two_bindings e.bindings (by simp [hi]) (by simp [ho])
  unfold inference
  rw [he]
  simp only [allocate_start]
  rw [hi, ho]
  simp [hbs, List.range'_succ, preprocessImage, himg]

theorem inference_run (p : Parser) (e : ICudaEngine) (c : IExecutionContext)
    (dev : Device) (image : Mat) (he : p.engine = some e) (hc : p.context = some c)
    (in0 out0 : Dims) (ins outs : List Dims)
    (hi : inputShapes e.bindings = in0 :: ins) (ho : outputShapes e.bindings = out0 :: outs)
    (himg : image.empty = false) :
    (inference p dev image).trace = allocEvents p.batch_size dev e.bindings
        ++ Event.preprocessImage dev.next in0
          :: preprocessImage.chw.map (fun r => Event.planeWrite dev.next r.1 r.2)
        ++ [Event.enqueue p.batch_size (List.range' dev.next e.bindings.length)]
        ++ Event.postprocessResults (dev.next + 1) out0
          :: (postprocessResults p.batch_size (dev.next + 1) out0).1
        ++ (if (postprocessResults p.batch_size (dev.next + 1) out0).2 = Outcome.returned
            then (List.range' dev.next e.bindings.length).map Event.cudaFree else [])
    ∧ (inference p dev image).device =
        (if (postprocessResults p.batch_size (dev.next + 1) out0).2 = Outcome.returned
          then inference.release (List.range' dev.next e.bindings.length)
            { next := dev.next + e.bindings.length
              live := dev.live ++ List.range' dev.next e.bindings.length }
          else { next := dev.next + e.bindings.length
                 live := dev.live ++ List.range' dev.next e.bindings.length })
    ∧ (inference p dev image).outcome
        = (postprocessResults p.batch_size (dev.next + 1) out0).2 := by
  obtain ⟨b0, b1, rest, hbs⟩ := two_bindings e.bindings (by simp [hi]) (by simp [ho])
  unfold inference
  rw [he, hc]
  simp only [allocate_start]
  rw [hi, ho]
  simp only [hbs, List.length_cons, List.range'_succ]
  by_cases hpost : (postprocessResults p.batch_size (dev.next + 1) out0).2 = Outcome.returned
  · simp [preprocessImage, himg, hpost]
  · simp [preprocessImage, himg, hpost]


/-! ## Projections of the trace of an inference call -/

theorem zipWith_malloc_filter (batch_size : Int) (bs : List Binding) (s : Nat) :
    (List.zipWith (fun ptr b => Event.cudaMalloc ptr (binding_size batch_size b.dims))
      (List.range' s bs.length) bs).filter Event.isStage = [] := by
  induction bs generalizing s with
  | nil => simp
  | cons b rest ih => simp [List.range'_succ, Event.isStage, ih]

theorem zipWith_malloc_size (batch_size : Int) (bs : List Binding) (s : Nat) :
    (List.zipWith (fun ptr b => Event.cudaMalloc ptr (binding_size batch_size b.dims))
      (List.range' s bs.length) bs).filterMap Event.mallocSize
      = bs.map (fun b => binding_size batch_size b.dims) := by
  induction bs generalizing s with
  | nil => simp
  | cons b rest ih => simp [List.range'_succ, Event.mallocSize, ih]

theorem zipWith_malloc_ptr (batch_size : Int) (bs : List Binding) (s : Nat) :
    (List.zipWith (fun ptr b => Event.cudaMalloc ptr (binding_size batch_size b.dims))
      (List.range' s bs.length) bs).filterMap Event.mallocPtr
      = List.range' s bs.length := by
  induction bs generalizing s with
  | nil => simp
  | cons b rest ih => simp [List.range'_succ, Event.mallocPtr, ih]

theorem zipWith_malloc_free (batch_size : Int) (bs : List Binding) (s : Nat) :
    (List.zipWith (fun ptr b => Event.cudaMalloc ptr (binding_size batch_size b.dims))
      (List.range' s bs.length) bs).filterMap Event.freePtr = [] := by
  induction bs generalizing s with
  | nil => simp
  | cons b rest ih => simp [List.range'_succ, Event.freePtr, ih]

theorem postprocess_filter (batch_size : Int) (gpu_output : Nat) (dims : Dims) :
    (postprocessResults batch_size gpu_output dims).1.filter Event.isStage = [] := by
  unfold postprocessResults
  simp only []
  split
  · simp [Event.isStage, List.filter_eq_nil_iff]
  · simp

theorem postprocess_mallocSize (batch_size : Int) (gpu_output : Nat) (dims : Dims) :
    (postprocessResults batch_size gpu_output dims).1.filterMap Event.mallocSize = [] := by
  unfold postprocessResults
  simp only []
  split
  · simp [Event.mallocSize, List.filterMap_eq_nil_iff]
  · simp

theorem postprocess_mallocPtr (batch_size : Int) (gpu_output : Nat) (dims : Dims) :
    (postprocessResults batch_size gpu_output dims).1.filterMap Event.mallocPtr = [] := by
  unfold postprocessResults
  simp only []
  split
  · simp [Event.mallocPtr, List.filterMap_eq_nil_iff]
  · simp

theorem chw_filter (gpu_input : Nat) :
    (preprocessImage.chw.map (fun r => Event.planeWrite gpu_input r.1 r.2)).filter
      Event.isStage = [] := by
  simp only [List.filter_eq_nil_iff, List.mem_map]
  rintro a ⟨r, _, rfl⟩
  simp [Event.isStage]

theorem hasInput_iff (bs : List Binding) : hasInput bs = true ↔ inputShapes bs ≠ [] := by
  simp [hasInput, inputShapes, List.filter_eq_nil_iff]

theorem hasOutput_iff (bs : List Binding) : hasOutput bs = true ↔ outputShapes bs ≠ [] := by
  simp [hasOutput, outputShapes, List.filter_eq_nil_iff]


/-! ## Release of the device buffers -/

theorem release_next (bufs : List Nat) (dev : Device) :
    (inference.release bufs dev).next = dev.next := by
  induction bufs generalizing dev with
  | nil => rfl
  | cons b rest ih => simp [inference.release, ih, cudaFree]

theorem release_fresh (live : List Nat) (n s k : Nat) (h : ∀ x ∈ live, x < s) :
    inference.release (List.range' s n) { next := k, live := live ++ List.range' s n }
      = { next := k, live := live } := by
  induction n generalizing s with
  | zero => simp [inference.release]
  | succ n ih =>
    have hs : s ∉ live := fun hmem => Nat.lt_irrefl s (h s hmem)
    have : (live ++ s :: List.range' (s + 1) n).erase s = live ++ List.range' (s + 1) n := by
      rw [List.erase_append_right _ hs]
      simp
    simp only [List.range'_succ, inference.release, cudaFree, this]
    exact ih (s + 1) (fun x hx => Nat.lt_succ_of_lt (h x hx))

/-- On the path of `inference` that reaches its last loop, every buffer allocated
during the call is released once and the live buffers are those of before the call. -/
theorem inference_run_releases (p : Parser) (e : ICudaEngine) (c : IExecutionContext)
    (dev : Device) (image : Mat) (he : p.engine = some e) (hc : p.context = some c)
    (hfresh : ∀ x ∈ dev.live, x < dev.next)
    (hret : (inference p dev image).outcome = Outcome.returned)
    (hi : hasInput e.bindings = true) (ho : hasOutput e.bindings = true) :
    (inference p dev image).device.live = dev.live
    ∧ (inference p dev image).trace.filterMap Event.freePtr
        = (inference p dev image).trace.filterMap Event.mallocPtr := by
  obtain ⟨in0, ins, hin⟩ := List.exists_cons_of_ne_nil ((hasInput_iff _).mp hi)
  obtain ⟨out0, outs, hout⟩ := List.exists_cons_of_ne_nil ((hasOutput_iff _).mp ho)
  cases himg : image.empty with
  | true =>
    have := (inference_exit p e dev image he in0 out0 ins outs hin hout himg).2.2
    rw [this] at hret
    cases hret
  | false =>
    obtain ⟨ht, hd, hout2⟩ := inference_run p e c dev image he hc in0 out0 ins outs hin hout himg
    rw [hout2] at hret
    rw [ht, hd]
    simp only [hret, if_true]
    constructor
    · rw [release_fresh _ _ _ _ hfresh]
    · have hpost : (postprocessResults p.batch_size (dev.next + 1) out0).1.filterMap
          Event.freePtr = [] := by
        unfold postprocessResults
        simp only []
        split
        · simp [Event.freePtr, List.filterMap_eq_nil_iff]
        · simp
      have hpre : (preprocessImage.chw.map
          (fun r => Event.planeWrite dev.next r.1 r.2)).filterMap Event.freePtr = [] := by
        simp only [List.filterMap_eq_nil_iff, List.mem_map]
        rintro a ⟨r, _, rfl⟩
        simp [Event.freePtr]
      have hpre2 : (preprocessImage.chw.map
          (fun r => Event.planeWrite dev.next r.1 r.2)).filterMap Event.mallocPtr = [] := by
        simp only [List.filterMap_eq_nil_iff, List.mem_map]
        rintro a ⟨r, _, rfl⟩
        simp [Event.mallocPtr]
      have hfree : ((List.range' dev.next e.bindings.length).map Event.cudaFree).filterMap
          Event.freePtr = List.range' dev.next e.bindings.length := by
        rw [List.filterMap_map]
        have : (Event.freePtr ∘ Event.cudaFree) = some := by
          funext x; simp [Event.freePtr]
        rw [this]; simp
      have hfree2 : ((List.range' dev.next e.bindings.length).map Event.cudaFree).filterMap
          Event.mallocPtr = [] := by
        simp only [List.filterMap_eq_nil_iff, List.mem_map]
        rintro a ⟨r, _, rfl⟩
        simp [Event.mallocPtr]
      simp only [List.filterMap_append, List.filterMap_cons, allocEvents,
        zipWith_malloc_free, zipWith_malloc_ptr, hpost, hpre, hpre2, hfree, hfree2,
        postprocess_mallocPtr, Event.freePtr, Event.mallocPtr, List.filterMap_nil,
        List.append_nil, List.nil_append]

/-- C3: the early return of `inference` leaks. With an engine that has a single
binding, an output of shape (1, 10), batch size 1 and a non-empty image, the call
allocates buffer 0, takes the early return and never frees it: the device had no
live buffer before the call and has one after it. -/
theorem inference_early_return_leaks :
    (inference (Parser.around engineOutOnly 1) Device.fresh someImage).outcome
      = Outcome.returned
    ∧ (inference (Parser.around engineOutOnly 1) Device.fresh someImage).trace
      = [Event.cudaMalloc 0 40,
         Event.cerr "Expect at least one input and one output for network \n"]
    ∧ Device.fresh.live = []
    ∧ (inference (Parser.around engineOutOnly 1) Device.fresh someImage).device.live
      = [0] := by
  refine ⟨by decide, by decide, by decide, by decide⟩


/-! ## The three stages -/

theorem stages_early (p : Parser) (e : ICudaEngine)
    (dev : Device) (image : Mat) (he : p.engine = some e)
    (h : ¬ (hasInput e.bindings = true ∧ hasOutput e.bindings = true)) :
    (inference p dev image).trace.filter Event.isStage = [] := by
  have h2 : inputShapes e.bindings = [] ∨ outputShapes e.bindings = [] := by
    by_contra hcon
    push_neg at hcon
    exact h ⟨(hasInput_iff _).mpr hcon.1, (hasOutput_iff _).mpr hcon.2⟩
  rw [(inference_early p e dev image he h2).1]
  simp [allocEvents, zipWith_malloc_filter, Event.isStage]

theorem stages_run (p : Parser) (e : ICudaEngine) (c : IExecutionContext)
    (dev : Device) (image : Mat) (he : p.engine = some e) (hc : p.context = some c)
    (in0 out0 : Dims) (ins outs : List Dims)
    (hi : inputShapes e.bindings = in0 :: ins) (ho : outputShapes e.bindings = out0 :: outs)
    (himg : image.empty = false) :
    (inference p dev image).trace.filter Event.isStage
      = [Event.preprocessImage dev.next in0,
         Event.enqueue p.batch_size (List.range' dev.next e.bindings.length),
         Event.postprocessResults (dev.next + 1) out0] := by
  rw [(inference_run p e c dev image he hc in0 out0 ins outs hi ho himg).1]
  have hfree : ((List.range' dev.next e.bindings.length).map Event.cudaFree).filter
      Event.isStage = [] := by
    simp only [List.filter_eq_nil_iff, List.mem_map]
    rintro a ⟨r, _, rfl⟩
    simp [Event.isStage]
  simp only [List.filter_append, List.filter_cons, allocEvents, zipWith_malloc_filter,
    chw_filter, postprocess_filter, Event.isStage, if_true, List.filter_nil,
    List.nil_append, List.append_nil]
  split <;> simp [hfree]

theorem stages_exit (p : Parser) (e : ICudaEngine)
    (dev : Device) (image : Mat) (he : p.engine = some e)
    (in0 out0 : Dims) (ins outs : List Dims)
    (hi : inputShapes e.bindings = in0 :: ins) (ho : outputShapes e.bindings = out0 :: outs)
    (himg : image.empty = true) :
    (inference p dev image).trace.filter Event.isStage
      = [Event.preprocessImage dev.next in0] := by
  rw [(inference_exit p e dev image he in0 out0 ins outs hi ho himg).1]
  simp [allocEvents, zipWith_malloc_filter, Event.isStage]

theorem mallocPtrs_inference (p : Parser) (e : ICudaEngine) (c : IExecutionContext)
    (dev : Device) (image : Mat) (he : p.engine = some e) (hc : p.context = some c) :
    (inference p dev image).trace.filterMap Event.mallocPtr
      = List.range' dev.next e.bindings.length := by
  by_cases h : inputShapes e.bindings = [] ∨ outputShapes e.bindings = []
  · rw [(inference_early p e dev image he h).1]
    simp [allocEvents, zipWith_malloc_ptr, Event.mallocPtr]
  · push_neg at h
    obtain ⟨in0, ins, hin⟩ := List.exists_cons_of_ne_nil h.1
    obtain ⟨out0, outs, hout⟩ := List.exists_cons_of_ne_nil h.2
    cases himg : image.empty with
    | true =>
      rw [(inference_exit p e dev image he in0 out0 ins outs hin hout himg).1]
      simp [allocEvents, zipWith_malloc_ptr, Event.mallocPtr]
    | false =>
      rw [(inference_run p e c dev image he hc in0 out0 ins outs hin hout himg).1]
      have hpre2 : (preprocessImage.chw.map
          (fun r => Event.planeWrite dev.next r.1 r.2)).filterMap Event.mallocPtr = [] := by
        simp only [List.filterMap_eq_nil_iff, List.mem_map]
        rintro a ⟨r, _, rfl⟩
        simp [Event.mallocPtr]
      have hfree2 : ((List.range' dev.next e.bindings.length).map Event.cudaFree).filterMap
          Event.mallocPtr = [] := by
        simp only [List.filterMap_eq_nil_iff, List.mem_map]
        rintro a ⟨r, _, rfl⟩
        simp [Event.mallocPtr]
      simp only [List.filterMap_append, List.filterMap_cons, allocEvents,
        zipWith_malloc_ptr, hpre2, postprocess_mallocPtr, Event.mallocPtr,
        List.filterMap_nil, List.append_nil]
      split <;> simp [hfree2]

theorem mallocSizes_inference (p : Parser) (e : ICudaEngine) (c : IExecutionContext)
    (dev : Device) (image : Mat) (he : p.engine = some e) (hc : p.context = some c) :
    (inference p dev image).trace.filterMap Event.mallocSize
      = e.bindings.map (fun b => binding_size p.batch_size b.dims) := by
  by_cases h : inputShapes e.bindings = [] ∨ outputShapes e.bindings = []
  · rw [(inference_early p e dev image he h).1]
    simp [allocEvents, zipWith_malloc_size, Event.mallocSize]
  · push_neg at h
    obtain ⟨in0, ins, hin⟩ := List.exists_cons_of_ne_nil h.1
    obtain ⟨out0, outs, hout⟩ := List.exists_cons_of_ne_nil h.2
    cases himg : image.empty with
    | true =>
      rw [(inference_exit p e dev image he in0 out0 ins outs hin hout himg).1]
      simp [allocEvents, zipWith_malloc_size, Event.mallocSize]
    | false =>
      rw [(inference_run p e c dev image he hc in0 out0 ins outs hin hout himg).1]
      have hpre2 : (preprocessImage.chw.map
          (fun r => Event.planeWrite dev.next r.1 r.2)).filterMap Event.mallocSize = [] := by
        simp only [List.filterMap_eq_nil_iff, List.mem_map]
        rintro a ⟨r, _, rfl⟩
        simp [Event.mallocSize]
      have hfree2 : ((List.range' dev.next e.bindings.length).map Event.cudaFree).filterMap
          Event.mallocSize = [] := by
        simp only [List.filterMap_eq_nil_iff, List.mem_map]
        rintro a ⟨r, _, rfl⟩
        simp [Event.mallocSize]
      simp only [List.filterMap_append, List.filterMap_cons, allocEvents,
        zipWith_malloc_size, hpre2, postprocess_mallocSize, Event.mallocSize,
        List.filterMap_nil, List.append_nil]
      split <;> simp [hfree2]


/-! ## Claims about the stages -/

/-- C4, as the claim states it, fails: with an input binding and an output binding
and an empty image, `preprocessImage` is entered and ends the process with `exit(0)`;
`enqueue` and `postprocessResults` are never run. -/
theorem inference_stages_counterexample :
    hasInput engineInOut.bindings = true
    ∧ hasOutput engineInOut.bindings = true
    ∧ (inference (Parser.around engineInOut 1)
        Device.fresh emptyImage).trace.filter Event.isStage
      = [Event.preprocessImage 0 PROFILE_DIMS]
    ∧ (inference (Parser.around engineInOut 1)
        Device.fresh emptyImage).outcome = Outcome.exited := by
  refine ⟨by decide, by decide, by decide, by decide⟩

/-- C4, amended: for every engine binding list and every non-empty image,
`inference` runs preprocessing, the device execution call and postprocessing if and
only if the list has at least one input binding and at least one output binding:
when it has both, the stages of the call are exactly one `preprocessImage`, then one
`enqueue`, then one `postprocessResults`; when it lacks an input binding or an output
binding, none of the three is run. -/
theorem inference_stages (p : Parser) (e : ICudaEngine) (c : IExecutionContext)
    (dev : Device) (image : Mat) (he : p.engine = some e) (hc : p.context = some c)
    (himg : image.empty = false) :
    ((hasInput e.bindings = true ∧ hasOutput e.bindings = true) →
      ∃ buf0 in0 bufs buf1 out0,
        (inference p dev image).trace.filter Event.isStage
          = [Event.preprocessImage buf0 in0, Event.enqueue p.batch_size bufs,
             Event.postprocessResults buf1 out0])
    ∧ (¬ (hasInput e.bindings = true ∧ hasOutput e.bindings = true) →
        (inference p dev image).trace.filter Event.isStage = []) := by
  constructor
  · rintro ⟨hi, ho⟩
    obtain ⟨in0, ins, hin⟩ := List.exists_cons_of_ne_nil ((hasInput_iff _).mp hi)
    obtain ⟨out0, outs, hout⟩ := List.exists_cons_of_ne_nil ((hasOutput_iff _).mp ho)
    exact ⟨dev.next, in0, List.range' dev.next e.bindings.length, dev.next + 1, out0,
      stages_run p e c dev image he hc in0 out0 ins outs hin hout himg⟩
  · exact stages_early p e dev image he

theorem inference_stages_witness :
    (Parser.around engineInOut 1).engine
      = some engineInOut
    ∧ Mat.empty someImage = false
    ∧ (inference (Parser.around engineInOut 1)
        Device.fresh someImage).trace.filter Event.isStage
      = [Event.preprocessImage 0 PROFILE_DIMS, Event.enqueue 1 [0, 1],
         Event.postprocessResults 1 ⟨[1, 10]⟩]
    ∧ (((hasInput engineInOut.bindings = true
          ∧ hasOutput engineInOut.bindings = true) →
        ∃ buf0 in0 bufs buf1 out0,
          (inference (Parser.around engineInOut 1)
            Device.fresh someImage).trace.filter Event.isStage
            = [Event.preprocessImage buf0 in0, Event.enqueue 1 bufs,
               Event.postprocessResults buf1 out0])
      ∧ (¬ (hasInput engineInOut.bindings = true
          ∧ hasOutput engineInOut.bindings = true) →
        (inference (Parser.around engineInOut 1)
          Device.fresh someImage).trace.filter Event.isStage = [])) :=
  ⟨rfl, by decide, by decide,
    inference_stages (Parser.around engineInOut 1)
      engineInOut
      ⟨engineInOut⟩ Device.fresh someImage rfl rfl
      (by decide)⟩

theorem toSizeT_of_nonneg (x : Int) (h : 0 ≤ x) : toSizeT x = x.toNat % SIZE_MOD := by
  unfold toSizeT SIZE_MOD
  norm_num
  omega

theorem binding_size_eq (batch_size : Int) (dims : Dims) (h : 0 ≤ batch_size) :
    binding_size batch_size dims
      = (getSizeByDim dims * batch_size.toNat * 4) % SIZE_MOD := by
  unfold binding_size mulSizeT SIZEOF_FLOAT
  rw [toSizeT_of_nonneg _ h, Nat.mul_mod_mod, Nat.mod_mul_mod]

theorem shapes_length (bs : List Binding) :
    (inputShapes bs).length + (outputShapes bs).length = bs.length := by
  induction bs with
  | nil => rfl
  | cons b rest ih =>
    cases hb : b.isInput <;>
      simp [inputShapes, outputShapes, hb] at ih ⊢ <;> omega

/-- C6, as the claim states it, fails: for a binding of shape
(65536, 65536, 65536, 16384) and batch size 1, `getSizeByDim` is `2 ^ 62` and
`getSizeByDim * batch_size * 4` is `2 ^ 64`, but the byte size handed to `cudaMalloc`
is 0. -/
theorem inference_allocations_counterexample :
    Dims.nonneg ⟨[65536, 65536, 65536, 16384]⟩
    ∧ getSizeByDim ⟨[65536, 65536, 65536, 16384]⟩ * 1 * 4 = 18446744073709551616
    ∧ (inference
        (Parser.around engineHuge 1)
        Device.fresh someImage).trace.filterMap Event.mallocSize = [0, 40] := by
  refine ⟨by decide, by decide, by decide⟩

/-- C6, amended: for every engine with n bindings and every batch size >= 1,
`inference` calls `cudaMalloc` exactly n times, the i-th time for
`getSizeByDim(shape of binding i) * batch_size * 4` bytes reduced modulo `2 ^ 64`
(that product itself whenever it is below `2 ^ 64`), and the input-shape list and the
output-shape list collected by the loop are the shapes of the input bindings and of
the output bindings, each in binding order, so that their lengths add up to n. -/
theorem inference_allocations (p : Parser) (e : ICudaEngine) (c : IExecutionContext)
    (dev : Device) (image : Mat) (he : p.engine = some e) (hc : p.context = some c)
    (hb : 1 ≤ p.batch_size) :
    (inference p dev image).trace.filterMap Event.mallocSize
      = e.bindings.map
          (fun b => (getSizeByDim b.dims * p.batch_size.toNat * 4) % SIZE_MOD)
    ∧ (∀ b ∈ e.bindings, getSizeByDim b.dims * p.batch_size.toNat * 4 < SIZE_MOD →
        binding_size p.batch_size b.dims = getSizeByDim b.dims * p.batch_size.toNat * 4)
    ∧ ((inference p dev image).trace.filterMap Event.mallocPtr).length = e.bindings.length
    ∧ (inference.allocate p.batch_size e.bindings (Buffers.start dev)).input_dims
        = inputShapes e.bindings
    ∧ (inference.allocate p.batch_size e.bindings (Buffers.start dev)).output_dims
        = outputShapes e.bindings
    ∧ (inputShapes e.bindings).length + (outputShapes e.bindings).length
        = e.bindings.length := by
  have h0 : 0 ≤ p.batch_size := by omega
  refine ⟨?_, ?_, ?_, by rw [allocate_start], by rw [allocate_start], shapes_length _⟩
  · rw [mallocSizes_inference p e c dev image he hc]
    apply List.map_congr_left
    intro b _
    exact binding_size_eq _ _ h0
  · intro b _ hlt
    rw [binding_size_eq _ _ h0, Nat.mod_eq_of_lt hlt]
  · rw [mallocPtrs_inference p e c dev image he hc]
    simp


theorem inference_allocations_witness :
    (Parser.around engineInOut 2).engine = some engineInOut
    ∧ (1 : Int) ≤ (Parser.around engineInOut 2).batch_size
    ∧ (inference (Parser.around engineInOut 2) Device.fresh someImage).trace.filterMap
        Event.mallocSize = [393216, 80]
    ∧ ((inference (Parser.around engineInOut 2) Device.fresh someImage).trace.filterMap
          Event.mallocSize
        = engineInOut.bindings.map
            (fun b => (getSizeByDim b.dims * (Parser.around engineInOut 2).batch_size.toNat * 4)
              % SIZE_MOD)
      ∧ (∀ b ∈ engineInOut.bindings,
          getSizeByDim b.dims * (Parser.around engineInOut 2).batch_size.toNat * 4 < SIZE_MOD →
          binding_size (Parser.around engineInOut 2).batch_size b.dims
            = getSizeByDim b.dims * (Parser.around engineInOut 2).batch_size.toNat * 4)
      ∧ ((inference (Parser.around engineInOut 2) Device.fresh someImage).trace.filterMap
          Event.mallocPtr).length = engineInOut.bindings.length
      ∧ (inference.allocate (Parser.around engineInOut 2).batch_size engineInOut.bindings
          (Buffers.start Device.fresh)).input_dims = inputShapes engineInOut.bindings
      ∧ (inference.allocate (Parser.around engineInOut 2).batch_size engineInOut.bindings
          (Buffers.start Device.fresh)).output_dims = outputShapes engineInOut.bindings
      ∧ (inputShapes engineInOut.bindings).length + (outputShapes engineInOut.bindings).length
          = engineInOut.bindings.length) :=
  ⟨rfl, by decide, by decide,
    inference_allocations (Parser.around engineInOut 2) engineInOut ⟨engineInOut⟩
      Device.fresh someImage rfl rfl (by decide)⟩

/-! ## Postprocessing -/

/-- C9, as the claim states it, fails. For the shape (65536, 65536, 65536) and batch
size 65536, `getSizeByDim(shape) * batch_size` is `2 ^ 64`, but the `size_t` product
wraps to 0: nothing is copied and nothing is emitted. For the shape (65536, 32768)
and batch size 1 the count is `2 ^ 31`, one more than `INT_MAX`, and the `int`
counter of the printing loop overflows. -/
theorem postprocess_count_counterexample :
    Dims.nonneg ⟨[65536, 65536, 65536]⟩
    ∧ getSizeByDim ⟨[65536, 65536, 65536]⟩ * 65536 = 18446744073709551616
    ∧ postprocessResults 65536 5 ⟨[65536, 65536, 65536]⟩
        = ([Event.cudaMemcpy 5 0], Outcome.returned)
    ∧ Dims.nonneg ⟨[65536, 32768]⟩
    ∧ getSizeByDim ⟨[65536, 32768]⟩ * 1 = 2147483648
    ∧ postprocessResults 1 5 ⟨[65536, 32768]⟩ = ([], Outcome.undefined) := by
  refine ⟨by decide, by decide, by decide, by decide, by decide, by decide⟩

theorem postprocess_size (batch_size : Int) (dims : Dims) (hb : 1 ≤ batch_size)
    (hn : getSizeByDim dims * batch_size.toNat ≤ INT_MAX) :
    mulSizeT (getSizeByDim dims) (toSizeT batch_size) = getSizeByDim dims * batch_size.toNat := by
  unfold mulSizeT
  rw [toSizeT_of_nonneg _ (by omega), Nat.mul_mod_mod]
  apply Nat.mod_eq_of_lt
  unfold INT_MAX at hn
  unfold SIZE_MOD
  omega

/-- C9, amended: for every output shape and every batch size >= 1 such that
`getSizeByDim(shape) * batch_size` does not exceed `INT_MAX`, `postprocessResults`
returns after copying exactly `4 * getSizeByDim(shape) * batch_size` bytes from the
device and emitting exactly `getSizeByDim(shape) * batch_size` values, those of index
0, 1, ... in order. -/
theorem postprocess_count (batch_size : Int) (gpu_output : Nat) (dims : Dims)
    (hb : 1 ≤ batch_size) (hn : getSizeByDim dims * batch_size.toNat ≤ INT_MAX) :
    (postprocessResults batch_size gpu_output dims).2 = Outcome.returned
    ∧ (postprocessResults batch_size gpu_output dims).1.filterMap Event.copied
        = [4 * (getSizeByDim dims * batch_size.toNat)]
    ∧ (postprocessResults batch_size gpu_output dims).1.filterMap Event.printed
        = List.range (getSizeByDim dims * batch_size.toNat)
    ∧ ((postprocessResults batch_size gpu_output dims).1.filterMap Event.printed).length
        = getSizeByDim dims * batch_size.toNat := by
  have hsize := postprocess_size batch_size dims hb hn
  have h4 : mulSizeT (getSizeByDim dims * batch_size.toNat) SIZEOF_FLOAT
      = 4 * (getSizeByDim dims * batch_size.toNat) := by
    unfold mulSizeT SIZEOF_FLOAT
    rw [Nat.mod_eq_of_lt]
    · omega
    · unfold INT_MAX at hn
      unfold SIZE_MOD
      omega
  have hprint : ∀ n : Nat, ((List.range n).map Event.print).filterMap Event.printed
      = List.range n := by
    intro n
    rw [List.filterMap_map]
    have : (Event.printed ∘ Event.print) = some := by
      funext x; simp [Event.printed]
    rw [this]; simp
  have hcopied : ∀ n : Nat, ((List.range n).map Event.print).filterMap Event.copied = [] := by
    intro n
    simp only [List.filterMap_eq_nil_iff, List.mem_map]
    rintro a ⟨r, _, rfl⟩
    simp [Event.copied]
  unfold postprocessResults
  simp only [hsize, hn, if_true, h4, List.filterMap_cons, Event.copied, Event.printed,
    hprint, hcopied, List.length_range, and_self]

theorem postprocess_count_witness :
    (1 : Int) ≤ 2
    ∧ getSizeByDim ⟨[1, 10]⟩ * (2 : Int).toNat ≤ INT_MAX
    ∧ (postprocessResults 2 1 ⟨[1, 10]⟩).2 = Outcome.returned
    ∧ (postprocessResults 2 1 ⟨[1, 10]⟩).1.filterMap Event.copied
        = [4 * (getSizeByDim ⟨[1, 10]⟩ * (2 : Int).toNat)]
    ∧ (postprocessResults 2 1 ⟨[1, 10]⟩).1.filterMap Event.printed
        = List.range (getSizeByDim ⟨[1, 10]⟩ * (2 : Int).toNat)
    ∧ ((postprocessResults 2 1 ⟨[1, 10]⟩).1.filterMap Event.printed).length
        = getSizeByDim ⟨[1, 10]⟩ * (2 : Int).toNat :=
  ⟨by decide, by decide, postprocess_count 2 1 ⟨[1, 10]⟩ (by decide) (by decide)⟩

/-! ## Preprocessing -/

theorem branch_builder_iff (path : CppString) :
    Parser.branch path = Branch.builder
      ↔ path = "onnx".toList ∨ ".onnx".toList <:+ path := by
  have h := file_extention_eq_iff path "onnx".toList (by decide)
  unfold Parser.branch
  constructor
  · intro hb
    by_cases h1 : file_extention path = "onnx".toList
    · exact h.mp h1
    · simp only [h1, if_false] at hb
      split at hb <;> cases hb
  · intro hb
    simp [h.mpr hb]

/-- In the third branch the constructor only reports that it cannot read the path:
no engine and no execution context is created. -/
theorem construct_unreadable (be : Backend) (fs : FileSystem) (ws : Nat)
    (path : CppString) (batch_sz : Int) (h : Parser.branch path = Branch.unreadable) :
    (Parser.construct be fs ws path batch_sz).trace
        = [Event.cerr ("Cannot read " ++ String.mk path)]
    ∧ (Parser.construct be fs ws path batch_sz).parser.engine = none
    ∧ (Parser.construct be fs ws path batch_sz).parser.context = none := by
  simp [Parser.construct, h]

/-- C2: the dispatch of the constructor misses the path without a dot. The paths
`onnx` and `trt` do not end with `.onnx` or `.trt`, yet the constructor takes the
Engine Builder branch for the first (it hands the path to the ONNX parser) and the
Engine Loader branch for the second, where the claim has it report the path as
unreadable. -/
theorem construct_branch_without_dot :
    ¬ (".onnx".toList <:+ "onnx".toList)
    ∧ Parser.branch "onnx".toList = Branch.builder
    ∧ (∀ (be : Backend) (fs : FileSystem) (ws : Nat) (batch_sz : Int),
        (Parser.construct be fs ws "onnx".toList batch_sz).trace.head?
          = some (Event.parseFromFile "onnx".toList))
    ∧ ¬ (".trt".toList <:+ "trt".toList)
    ∧ Parser.branch "trt".toList = Branch.loader := by
  refine ⟨by decide, by decide, ?_, by decide, by decide⟩
  intro be fs ws batch_sz
  have hb : Parser.branch "onnx".toList = Branch.builder := by decide
  simp only [Parser.construct, hb, Parser.build]
  split
  · rfl
  · split <;> rfl

/-- The Engine Loader branch stops at its assertion when deserialization yields no
plan: no execution context is requested. -/
theorem load_null_plan (be : Backend) (fs : FileSystem) (ws : Nat) (path : CppString)
    (batch_sz : Int) (hbranch : Parser.branch path = Branch.loader)
    (hrt : be.createInferRuntime = true)
    (hnull : be.deserializeCudaEngine ((fs.content path).getD [])
      (match fs.content path with
        | some bytes => bytes.length
        | none => 0) = none) :
    (Parser.construct be fs ws path batch_sz).outcome = Outcome.aborted
    ∧ (Parser.construct be fs ws path batch_sz).trace.getLast?
        = some (Event.assertFailed "this->engine != nullptr")
    ∧ ∀ engine, Event.createExecutionContext engine
        ∉ (Parser.construct be fs ws path batch_sz).trace := by
  simp [Parser.construct, hbranch, Parser.load, hrt, hnull]

/-- C8: the Engine Builder branch does not check the result of compilation. When
`buildEngineWithConfig` yields a null plan for a path of that branch that parses, the
constructor does not fail with an error: it goes on to call `createExecutionContext`
through the null engine pointer, which is undefined behaviour. -/
theorem build_null_plan (be : Backend) (fs : FileSystem) (ws : Nat) (path : CppString)
    (batch_sz : Int) (hbranch : Parser.branch path = Branch.builder)
    (hparse : be.parseFromFile path = true)
    (hnull : be.buildEngineWithConfig path = none) :
    (Parser.construct be fs ws path batch_sz).outcome = Outcome.undefined
    ∧ (Parser.construct be fs ws path batch_sz).trace.getLast?
        = some (Event.createExecutionContext none)
    ∧ ∀ what, Event.assertFailed what
        ∉ (Parser.construct be fs ws path batch_sz).trace := by
  simp only [Parser.construct, hbranch, Parser.build, hparse, hnull]
  refine ⟨by simp, ?_, ?_⟩
  · cases be.platformHasFastFp16 <;> simp
  · intro what
    cases be.platformHasFastFp16 <;> simp

theorem build_null_plan_witness :
    Parser.branch "model.onnx".toList = Branch.builder
    ∧ backendNull.parseFromFile "model.onnx".toList = true
    ∧ backendNull.buildEngineWithConfig "model.onnx".toList = none
    ∧ (Parser.construct backendNull oneModel 1073741824 "model.onnx".toList 1).outcome
        = Outcome.undefined
    ∧ (Parser.construct backendNull oneModel 1073741824 "model.onnx".toList 1).trace.getLast?
        = some (Event.createExecutionContext none)
    ∧ ∀ what, Event.assertFailed what
        ∉ (Parser.construct backendNull oneModel 1073741824 "model.onnx".toList 1).trace :=
  ⟨by decide, rfl, rfl,
    build_null_plan backendNull oneModel 1073741824 "model.onnx".toList 1 (by decide) rfl rfl⟩


/-! ## Export and load -/

/-- The copy loop copies the whole source when it is allowed enough rounds. -/
theorem copy_all (fuel : Nat) (unread written : Bytes) (h : unread.length < fuel) :
    export_trt.copy fuel unread written = written ++ unread := by
  induction fuel generalizing unread written with
  | zero => omega
  | succ n ih =>
    unfold export_trt.copy
    by_cases hz : (unread.take BUFSIZ).length = 0
    · have : unread = [] := by
        cases unread with
        | nil => rfl
        | cons x xs => simp [BUFSIZ] at hz
      simp [this]
    · simp only [hz, if_false]
      have hpos : 0 < unread.length := by
        cases unread with
        | nil => simp at hz
        | cons x xs => simp
      rw [ih]
      · rw [List.append_assoc, List.take_append_drop]
      · simp only [List.length_drop, BUFSIZ]
        omega

end TrtParser
